import Mathlib

/-!
Verification development for the `yahoo-finance-symbols` repository
(rust: `src/lib.rs` query layer over a SQLite symbols table, and
`build.rs` scraping/ingestion pipeline).

The SQLite table `symbols (symbol, name, category, asset_class, exchange)`
is embedded as a list of `Symbol` records in insertion order.  SQL
operations are translated row-by-row: `SELECT ... WHERE col IN (...)`
becomes `List.filter` with list-membership tests, `SELECT DISTINCT col`
becomes `List.dedup` of the projected column, `INSERT` appends a row,
`SELECT COUNT(*)` is the list length, and `query_row` on a point lookup
returns the first matching row or a no-rows error.

External collaborators (the HTML parser of the `scraper` crate, the HTTP
transport of `reqwest`, the `html_escape` crate, Rust's `to_lowercase`
and `str::contains`) are modelled at their interface boundary, as
explained at each definition.
-/

namespace Yfs

/-- The `Symbol` struct of `src/lib.rs` (also the row type of the
`symbols` table: five TEXT columns, `symbol` is the primary key). -/
structure Symbol where
  symbol : String
  name : String
  category : String
  asset_class : String
  exchange : String
deriving DecidableEq, Repr, Inhabited

/-- The `Ticker` struct of `build.rs` (one parsed record from a scraped
listing page; same five string fields as `Symbol`). -/
structure Ticker where
  symbol : String
  name : String
  category : String
  asset_class : String
  exchange : String
deriving DecidableEq, Repr, Inhabited

/-- The contents of the `symbols` table, in insertion order. -/
abbrev Store := List Symbol

/-- `get_distinct_asset_classes` (`src/lib.rs`):
`SELECT DISTINCT asset_class FROM symbols`. -/
def get_distinct_asset_classes (store : Store) : List String :=
  (store.map (·.asset_class)).dedup

/-- `get_distinct_categories` (`src/lib.rs`):
`SELECT DISTINCT category FROM symbols`. -/
def get_distinct_categories (store : Store) : List String :=
  (store.map (·.category)).dedup

/-- `get_distinct_exchanges` (`src/lib.rs`):
`SELECT DISTINCT exchange FROM symbols`. -/
def get_distinct_exchanges (store : Store) : List String :=
  (store.map (·.exchange)).dedup

/-- Modelled from the spec: the `keys` module (`src/keys.rs`) is not under
`src/`; per the spec, `AssetClass` is a closed enumeration of the seven
asset classes plus an `All` variant. -/
inductive AssetClass where
  | Stocks | ETFs | MutualFunds | Indices | Futures | Currencies | Cryptocurrencies | All
deriving DecidableEq, Repr

/-- Modelled from the spec: the string literal a concrete (non-`All`)
`AssetClass` variant expands to.  The spec pins `Stocks ↦ "Stocks"`
(its `searchSymbols("Apple","Equity")` example matches a stored
`asset_class:"Stocks"`); the remaining literals are representative
display strings, which no claim depends on concretely. -/
def AssetClass.literal : AssetClass → String
  | .Stocks => "Stocks"
  | .ETFs => "ETF"
  | .MutualFunds => "Mutual Fund"
  | .Indices => "Index"
  | .Futures => "Futures"
  | .Currencies => "Currency"
  | .Cryptocurrencies => "Cryptocurrency"
  | .All => ""

/-- Modelled from the spec: `AssetClass::to_string_vec` — an `All`
argument "expands, at query time, to the complete set of concrete values
observed for that dimension" (via the distinct-values query), else the
argument's own literal. -/
def AssetClass.to_string_vec (store : Store) : AssetClass → List String
  | .All => get_distinct_asset_classes store
  | ac => [ac.literal]

/-- Modelled from the spec: the `Category` filter enumeration
(`src/keys.rs` is not under `src/`).  A concrete variant carries its
literal string; `All` expands to the distinct categories of the Store. -/
inductive Category where
  | All
  | Specific (value : String)
deriving DecidableEq, Repr

/-- Modelled from the spec: `Category::to_string_vec`. -/
def Category.to_string_vec (store : Store) : Category → List String
  | .All => get_distinct_categories store
  | .Specific v => [v]

/-- Modelled from the spec: the `Exchange` filter enumeration
(`src/keys.rs` is not under `src/`). -/
inductive Exchange where
  | All
  | Specific (value : String)
deriving DecidableEq, Repr

/-- Modelled from the spec: `Exchange::to_string_vec`. -/
def Exchange.to_string_vec (store : Store) : Exchange → List String
  | .All => get_distinct_exchanges store
  | .Specific v => [v]

/-- `get_symbols` (`src/lib.rs`, lines 164–200): expands the three enum
arguments to string lists, builds `asset_class IN (...) AND category IN
(...) AND exchange IN (...)`, and runs `SELECT * FROM symbols WHERE ...`;
row order is the table's natural (insertion) order. -/
def get_symbols (store : Store) (asset_class : AssetClass) (category : Category)
    (exchange : Exchange) : List Symbol :=
  let asset_classes := asset_class.to_string_vec store
  let categories := category.to_string_vec store
  let exchanges := exchange.to_string_vec store
  store.filter (fun s =>
    asset_classes.contains s.asset_class
      && categories.contains s.category
      && exchanges.contains s.exchange)

/-- `get_symbols_count` (`src/lib.rs`): `SELECT COUNT(*) FROM symbols`. -/
def get_symbols_count (store : Store) : Nat :=
  store.length

/-- The `rusqlite` error produced by `query_row` when the point lookup
matches no row. -/
inductive DbError where
  | QueryReturnedNoRows
deriving DecidableEq, Repr

/-- `get_symbol` (`src/lib.rs`, lines 107–124):
`SELECT * FROM symbols WHERE symbol = ?` via `query_row`, which yields
the first matching row or `QueryReturnedNoRows`. -/
def get_symbol (store : Store) (symbol : String) : Except DbError Symbol :=
  match store.find? (fun r => r.symbol == symbol) with
  | some r => .ok r
  | none => .error .QueryReturnedNoRows

/-- Models the external `html_escape::decode_html_entities` call used by
`insert_document` (`build.rs`, line 127), restricted to the four basic
named entities; the spec and its round-trip example only involve
`&amp;`. -/
def decodeEntityChars : List Char → List Char
  | '&' :: 'a' :: 'm' :: 'p' :: ';' :: rest => '&' :: decodeEntityChars rest
  | '&' :: 'l' :: 't' :: ';' :: rest => '<' :: decodeEntityChars rest
  | '&' :: 'g' :: 't' :: ';' :: rest => '>' :: decodeEntityChars rest
  | '&' :: 'q' :: 'u' :: 'o' :: 't' :: ';' :: rest => '"' :: decodeEntityChars rest
  | c :: rest => c :: decodeEntityChars rest
  | [] => []

/-- String-level wrapper for `decodeEntityChars`. -/
def decode_html_entities (s : String) : String :=
  String.mk (decodeEntityChars s.toList)

/-- `insert_document` (`build.rs`, lines 121–135): `INSERT INTO symbols
(symbol, name, category, asset_class, exchange) VALUES (?, ?, ?, ?, ?)`,
with the name HTML-entity-decoded at insert time and the other four
fields bound verbatim.  An SQL `INSERT` appends the row to the table. -/
def insert_document (conn : Store) (doc : Ticker) : Store :=
  conn ++ [{ symbol := doc.symbol,
             name := decode_html_entities doc.name,
             category := doc.category,
             asset_class := doc.asset_class,
             exchange := doc.exchange }]

/-- `document_exists_in_db` (`build.rs`, lines 114–119):
`SELECT COUNT(*) FROM symbols WHERE symbol = ?` compared with `> 0`. -/
def document_exists_in_db (conn : Store) (doc : Ticker) : Bool :=
  conn.any (fun r => r.symbol == doc.symbol)

/-- The per-page dedup-and-insert loop of `save_symbols` (`build.rs`,
lines 47–51): for each parsed document, insert it only if no row with
that symbol exists yet. -/
def ingestDocs (conn : Store) (docs : List Ticker) : Store :=
  docs.foldl
    (fun conn doc =>
      if document_exists_in_db conn doc then conn else insert_document conn doc)
    conn

/-- A whitespace test for the model of Rust's `str::trim`. -/
def isWhitespaceChar (c : Char) : Bool :=
  c = ' ' || c = '\t' || c = '\n' || c = '\r'

/-- Models Rust's `str::trim` on the character list. -/
def trimChars (l : List Char) : List Char :=
  ((l.dropWhile isWhitespaceChar).reverse.dropWhile isWhitespaceChar).reverse

/-- Models Rust's `str::trim`: strips leading and trailing whitespace. -/
def trimStr (s : String) : String :=
  String.mk (trimChars s.toList)

/-- Model of an `<a>` element found inside a listing-table cell, at the
interface of the external `scraper` HTML crate: its `data-symbol`
attribute (if any) and its `inner_html()`. -/
structure LinkElem where
  dataSymbol : Option String
  innerHtml : String
deriving DecidableEq, Repr, Inhabited

/-- Model of one `<td>` cell of a listing-table row, at the interface of
the external `scraper` HTML crate: `inner` is the cell's `inner_html()`,
and `firstLink` is the first `<a>` element obtained when that fragment is
re-parsed (`Html::parse_fragment` + `select("a").next()`). -/
structure Cell where
  inner : String
  firstLink : Option LinkElem
deriving DecidableEq, Repr, Inhabited

/-- One `<tr>` row of the listing table: its cells in document order. -/
abbrev HtmlRow := List Cell

/-- A fetched page's rows, as selected by `"table tbody tr"`. -/
abbrev HtmlPage := List HtmlRow

/-- The symbol extraction of `scrape_symbols` (`build.rs`, lines 84–93):
first `<a>` of cell 0, its `data-symbol` attribute, with empty-string
fallbacks both when the attribute and when the link is absent. -/
def cellSymbol (c : Cell) : String :=
  match c.firstLink with
  | some a => a.dataSymbol.getD ""
  | none => ""

/-- The category extraction of `scrape_symbols` (`build.rs`, lines
95–103): first `<a>` of cell 3, its trimmed `inner_html()`, with the
sentinel `"N/A"` when no link is present. -/
def cellCategory (c : Cell) : String :=
  match c.firstLink with
  | some a => trimStr a.innerHtml
  | none => "N/A"

/-- The per-row body of the parsing loop of `scrape_symbols` (`build.rs`,
lines 74–110): collect the trimmed `inner_html()` of every cell into
`columns`; if there are at least 6 columns, emit one `Ticker` (symbol
from the nested link of cell 0, name from column 1, category from the
nested link of cell 3, asset class from column 4, exchange from column
5), otherwise emit nothing. -/
def scrapeRow (row : HtmlRow) : Option Ticker :=
  let columns := row.map (fun c => trimStr c.inner)
  if 6 ≤ columns.length then
    some { symbol := cellSymbol (row.getD 0 default),
           name := columns.getD 1 "",
           category := cellCategory (row.getD 3 default),
           asset_class := columns.getD 4 "",
           exchange := columns.getD 5 "" }
  else
    none

/-- The full parsing loop of `scrape_symbols` over a page's rows. -/
def scrapeRows (page : HtmlPage) : List Ticker :=
  page.filterMap scrapeRow

/-- The Listing Parser's per-row contract as the spec words it (§4.3),
for comparison with `scrapeRow`: symbol is the data attribute of the
nested link in cell 0 (empty string if the link or the attribute is
absent), name is cell 1, category is the text of the nested link in cell
3 (sentinel `"N/A"` if no link), asset class is cell 4, exchange is
cell 5. -/
def parseRowSpec (row : HtmlRow) : Ticker :=
  { symbol := cellSymbol (row.getD 0 default),
    name := trimStr (row.getD 1 default).inner,
    category := cellCategory (row.getD 3 default),
    asset_class := trimStr (row.getD 4 default).inner,
    exchange := trimStr (row.getD 5 default).inner }

/-- A concrete well-formed 6-cell row (nested symbol link in cell 0,
nested category link in cell 3). -/
def sampleRow6 : HtmlRow :=
  [⟨"<a>AAPL</a>", some ⟨some "AAPL", "AAPL"⟩⟩,
   ⟨"Apple Inc.", none⟩,
   ⟨"", none⟩,
   ⟨"<a>Technology</a>", some ⟨none, "Technology"⟩⟩,
   ⟨"Stocks", none⟩,
   ⟨"NASDAQ", none⟩]

/-- A concrete malformed 4-cell row. -/
def sampleRow4 : HtmlRow :=
  [⟨"w", none⟩, ⟨"x", none⟩, ⟨"y", none⟩, ⟨"z", none⟩]

/-- The record `sampleRow6` parses to. -/
def sampleTicker : Ticker :=
  ⟨"AAPL", "Apple Inc.", "Technology", "Stocks", "NASDAQ"⟩

/-- An HTTP request as the fetcher builds it: the url and the
`User-Agent` header (absent if never set). -/
structure HttpRequest where
  url : String
  userAgent : Option String
deriving DecidableEq, Repr

/-- Model of the `reqwest` blocking transport at its interface: a
delivered response carries a status code and a body; the body is given
already parsed (`Html::parse_document` plus the `"table tbody tr"` /
`"td"` selection) as an `HtmlPage`. -/
structure HttpResponse where
  status : Nat
  page : HtmlPage
deriving DecidableEq, Repr

/-- The transport: sending a request either delivers a response or fails
with a transport error.  `reqwest`'s `send()?` and `text()?` propagate
transport failures only — a delivered response of any status code is
returned as a value. -/
abbrev HttpSend (ε : Type) := HttpRequest → Except ε HttpResponse

/-- The `User-Agent` value of `build.rs`, line 63. -/
def userAgentString : String :=
  "Mozilla/5.0 (Windows NT 10.0; Win64; x64) AppleWebKit/537.36 (KHTML, like Gecko) Chrome/91.0.4472.124 Safari/537.36"

/-- The `base_url` of `save_symbols` (`build.rs`, line 38). -/
def base_url : String := "https://finance.yahoo.com/lookup/"

/-- The url format of `scrape_symbols` (`build.rs`, line 59). -/
def lookupUrl (base sector symbol : String) : String :=
  base ++ sector ++ "?s=" ++ symbol ++ "&t=A&b=0&c=5000"

/-- The request `scrape_symbols` sends (`build.rs`, lines 59–64). -/
def lookupRequest (base sector symbol : String) : HttpRequest :=
  { url := lookupUrl base sector symbol, userAgent := some userAgentString }

/-- `scrape_symbols` (`build.rs`, lines 58–112): build the lookup request
with the browser `User-Agent`, send it, and parse the body's table rows.
The response status is never inspected. -/
def scrape_symbols {ε : Type} (send : HttpSend ε) (base sector symbol : String) :
    Except ε (List Ticker) := do
  let response ← send (lookupRequest base sector symbol)
  pure (scrapeRows response.page)

/-- The sector list of `save_symbols` (`build.rs`, line 39). -/
def sectors : List String :=
  ["equity", "mutualfund", "etf", "index", "future", "currency"]

/-- The prefix alphabet of `save_symbols` (`build.rs`, line 40). -/
def search_set : List Char :=
  "ABCDEFGHIJKLMNOPQRSTUVWXYZ0123456789".toList

/-- The body of the inner loop of `save_symbols` (`build.rs`, lines
43–52): scrape one (sector, one-character-prefix) page — `?` propagating
any failure — then dedup-and-insert each parsed document. -/
def savePrefix {ε : Type} (send : HttpSend ε) (sector : String) (conn : Store)
    (c1 : Char) : Except ε Store := do
  let result ← scrape_symbols send base_url sector (String.singleton c1)
  pure (ingestDocs conn result)

/-- `save_symbols` (`build.rs`, lines 24–56), after the table creation:
the nested loops over `sectors` and `search_set`, with `?` aborting
everything on the first failing pair.  The initial `conn` argument is the
table contents at the open of the connection (empty for a fresh file). -/
def save_symbols {ε : Type} (send : HttpSend ε) (conn : Store) : Except ε Store :=
  sectors.foldlM
    (fun conn sector => search_set.foldlM (savePrefix send sector) conn)
    conn

/-- The (sector, prefix) pairs `save_symbols` sweeps, in request order. -/
def pairsList : List (String × String) :=
  sectors.flatMap (fun sector => search_set.map (fun c1 => (sector, String.singleton c1)))

/-- One sweep step of `save_symbols`, expressed on a (sector, prefix)
pair rather than on the nested loop variables. -/
def savePair {ε : Type} (send : HttpSend ε) (conn : Store) (p : String × String) :
    Except ε Store := do
  let result ← scrape_symbols send base_url p.1 p.2
  pure (ingestDocs conn result)

/-- A transport that always delivers an HTTP 404 response whose body
still contains one well-formed symbol row. -/
def send404 : HttpSend Nat :=
  fun _ => .ok ⟨404, [sampleRow6]⟩

/-- A transport that always fails with transport error `7`. -/
def sendFail : HttpSend Nat :=
  fun _ => .error 7

/-- Models Rust's `String::to_lowercase` on the character list (the
ASCII-relevant part of Unicode lowercasing). -/
def to_lowercase (s : String) : String :=
  String.mk (s.toList.map Char.toLower)

/-- Substring search on character lists, first argument the pattern. -/
def infixOfChars : List Char → List Char → Bool
  | pat, [] => pat.isEmpty
  | pat, c :: t => pat.isPrefixOf (c :: t) || infixOfChars pat t

/-- Models Rust's `str::contains(&str)`: substring containment. -/
def containsSubstr (hay pat : String) : Bool :=
  infixOfChars pat.toList hay.toList

/-- The label match at the head of `search_symbols` (`src/lib.rs`, lines
281–290): the seven recognized human-readable labels and their
`AssetClass` variants; anything else falls to the panic arm, modelled as
`none`. -/
def assetClassOfLabel : String → Option AssetClass
  | "Equity" => some .Stocks
  | "ETF" => some .ETFs
  | "Mutual Fund" => some .MutualFunds
  | "Index" => some .Indices
  | "Currency" => some .Currencies
  | "Futures" => some .Futures
  | "Crypto" => some .Cryptocurrencies
  | _ => none

/-- The panic on an unrecognized asset-class label (`src/lib.rs`, line
289), modelled as a typed fatal configuration error. -/
inductive SearchError where
  | ConfigurationError
deriving DecidableEq, Repr

/-- Model of `HashMap<String, String>` insertion: replaces any existing
binding of the key, as collecting an iterator of pairs into a `HashMap`
does (later pairs win). -/
def hashMapInsert (m : List (String × String)) (kv : String × String) :
    List (String × String) :=
  m.filter (fun q => !(q.1 == kv.1)) ++ [kv]

/-- Model of `Iterator::collect::<HashMap<String, String>>()`: insert the
pairs left to right into an empty map. -/
def hashMapOfList (l : List (String × String)) : List (String × String) :=
  l.foldl hashMapInsert []

/-- The retained records of `search_symbols` (`src/lib.rs`, lines
291–295): the unfiltered fetch of the labeled asset class, keeping
records whose lowercased symbol or name contains the lowercased query. -/
def searchMatches (store : Store) (query : String) (ac : AssetClass) : List Symbol :=
  (get_symbols store ac .All .All).filter (fun tc =>
    containsSubstr (to_lowercase tc.symbol) (to_lowercase query)
      || containsSubstr (to_lowercase tc.name) (to_lowercase query))

/-- The (symbol, name) projection of `search_symbols` (`src/lib.rs`,
line 296). -/
def searchPairs (store : Store) (query : String) (ac : AssetClass) :
    List (String × String) :=
  (searchMatches store query ac).map (fun tc => (tc.symbol, tc.name))

/-- `search_symbols` (`src/lib.rs`, lines 280–299): resolve the label (a
panic — fatal configuration error — on an unrecognized one), fetch the
asset class unfiltered (`Category::All`, `Exchange::All`), retain the
case-insensitive substring matches, and collect (symbol, name) pairs
into a `HashMap`. -/
def search_symbols (store : Store) (query : String) (asset_class : String) :
    Except SearchError (List (String × String)) :=
  match assetClassOfLabel asset_class with
  | none => .error .ConfigurationError
  | some ac => .ok (hashMapOfList (searchPairs store query ac))

/-- The process-wide state relevant to the Catalog Client lifecycle: the
contents of the `symbols.db` file at its fixed path (`none` when the
file is absent), and the `DATABASE_POOL` once-cell, modelled as the
table contents visible through the pooled connections (`none` while the
cell is unset).  Deleting and rewriting the file does not change what
the already-opened pooled connections see. -/
structure ProcState where
  dbFile : Option Store
  databasePool : Option Store
deriving DecidableEq, Repr

/-- `initialize_database` (`src/lib.rs`, lines 19–35): when the file is
absent, download the snapshot (`download` is what the fixed URL serves;
`none` models a failed download), falling back to a full `save_symbols`
ingestion into the fresh file; then open a connection pool on the file.
Returns the pool (the contents it sees) and the updated state. -/
def initialize_database {ε : Type} (send : HttpSend ε) (download : Option Store)
    (st : ProcState) : Except ε (Store × ProcState) :=
  match st.dbFile with
  | some contents => .ok (contents, st)
  | none =>
    match download with
    | some snapshot => .ok (snapshot, { st with dbFile := some snapshot })
    | none =>
      match save_symbols send [] with
      | .error e => .error e
      | .ok fresh => .ok (fresh, { st with dbFile := some fresh })

/-- `get_database_pool` (`src/lib.rs`, lines 37–43): the once-cell guard
— return the cached pool when `DATABASE_POOL` is set, otherwise
initialize the database, set the cell, and return the new pool. -/
def get_database_pool {ε : Type} (send : HttpSend ε) (download : Option Store)
    (st : ProcState) : Except ε (Store × ProcState) :=
  match st.databasePool with
  | some pool => .ok (pool, st)
  | none =>
    match initialize_database send download st with
    | .error e => .error e
    | .ok (pool, st1) => .ok (pool, { st1 with databasePool := some pool })

/-- `update_database` (`src/lib.rs`, lines 47–60): delete the
`symbols.db` file when present, then run `save_symbols` against the path
— the connection opens a fresh file, so ingestion starts from an empty
table regardless of the previous contents.  The function never touches
`DATABASE_POOL`. -/
def update_database {ε : Type} (send : HttpSend ε) (st : ProcState) :
    Except ε ProcState :=
  match save_symbols send [] with
  | .error e => .error e
  | .ok rebuilt => .ok { dbFile := some rebuilt, databasePool := st.databasePool }

/-- A stored record present before a rebuild. -/
def oldSym : Symbol := ⟨"OLD", "Old Co", "N/A", "Stocks", "NYSE"⟩

/-- The `Symbol` row that ingesting `sampleRow6` produces. -/
def aaplSym : Symbol := ⟨"AAPL", "Apple Inc.", "Technology", "Stocks", "NASDAQ"⟩

/-- A transport that always delivers HTTP 200 with one well-formed
symbol row. -/
def sendPage : HttpSend Nat :=
  fun _ => .ok ⟨200, [sampleRow6]⟩

end Yfs

namespace Yfs

theorem contains_iff_mem (l : List String) (a : String) :
    l.contains a = true ↔ a ∈ l := by
  simp [List.contains_iff_exists_mem_beq]

/-- C1: `get_symbols(assetClass, category, exchange)` returns exactly the
stored records whose `asset_class`, `category` and `exchange` each lie in
the expanded value set of the corresponding argument (three `IN`
predicates combined with `AND`, an `All` argument expanding to the
distinct values observed in the Store); in particular
`get_symbols(All, All, All)` is exactly the full table enumeration — no
duplicates, no omissions — and has `get_symbols_count()` records. -/
theorem c1_get_symbols_in_predicates :
    ∀ (store : Store) (ac : AssetClass) (cat : Category) (ex : Exchange),
      (∀ s, s ∈ get_symbols store ac cat ex ↔
          s ∈ store ∧ s.asset_class ∈ AssetClass.to_string_vec store ac
            ∧ s.category ∈ Category.to_string_vec store cat
            ∧ s.exchange ∈ Exchange.to_string_vec store ex)
      ∧ get_symbols store .All .All .All = store
      ∧ (get_symbols store .All .All .All).length = get_symbols_count store := by
  intro store ac cat ex
  have hall : get_symbols store .All .All .All = store := by
    rw [get_symbols, List.filter_eq_self]
    intro s hs
    simp only [Bool.and_eq_true, contains_iff_mem]
    refine ⟨⟨?_, ?_⟩, ?_⟩
    · simp only [AssetClass.to_string_vec, get_distinct_asset_classes, List.mem_dedup]
      exact List.mem_map_of_mem _ hs
    · simp only [Category.to_string_vec, get_distinct_categories, List.mem_dedup]
      exact List.mem_map_of_mem _ hs
    · simp only [Exchange.to_string_vec, get_distinct_exchanges, List.mem_dedup]
      exact List.mem_map_of_mem _ hs
  refine ⟨?_, hall, by rw [hall]; rfl⟩
  intro s
  simp only [get_symbols, List.mem_filter, Bool.and_eq_true, contains_iff_mem]
  tauto

theorem ingestDocs_cons (conn : Store) (d : Ticker) (ds : List Ticker) :
    ingestDocs conn (d :: ds) =
      ingestDocs (if document_exists_in_db conn d then conn else insert_document conn d) ds :=
  rfl

theorem ingestDocs_append (docs : List Ticker) :
    ∀ conn, ∃ t, ingestDocs conn docs = conn ++ t := by
  induction docs with
  | nil => intro conn; exact ⟨[], by simp [ingestDocs]⟩
  | cons d ds ih =>
    intro conn
    rw [ingestDocs_cons]
    by_cases h : document_exists_in_db conn d
    · rw [if_pos h]; exact ih conn
    · rw [if_neg h]
      obtain ⟨t2, h2⟩ := ih (insert_document conn d)
      rw [h2, insert_document, List.append_assoc]
      exact ⟨_, rfl⟩

theorem exists_mono (conn t : Store) (doc : Ticker)
    (h : document_exists_in_db conn doc = true) :
    document_exists_in_db (conn ++ t) doc = true := by
  simp only [document_exists_in_db, List.any_append, Bool.or_eq_true]
  exact Or.inl h

theorem exists_after_ingest (docs : List Ticker) :
    ∀ conn, ∀ d ∈ docs, document_exists_in_db (ingestDocs conn docs) d = true := by
  induction docs with
  | nil => intro conn d hd; simp at hd
  | cons x ds ih =>
    intro conn d hd
    rw [ingestDocs_cons]
    rcases List.mem_cons.1 hd with rfl | hd
    · obtain ⟨t, ht⟩ :=
        ingestDocs_append ds
          (if document_exists_in_db conn d then conn else insert_document conn d)
      rw [ht]
      apply exists_mono
      by_cases h : document_exists_in_db conn d
      · rwa [if_pos h]
      · rw [if_neg h]
        simp [document_exists_in_db, insert_document, List.any_append]
    · exact ih _ d hd

theorem ingestDocs_of_all_present (docs : List Ticker) :
    ∀ conn, (∀ d ∈ docs, document_exists_in_db conn d = true) →
      ingestDocs conn docs = conn := by
  induction docs with
  | nil => intro conn _; rfl
  | cons x ds ih =>
    intro conn h
    rw [ingestDocs_cons, if_pos (h x (by simp))]
    exact ih conn (fun d hd => h d (List.mem_cons_of_mem _ hd))

/-- C3: ingestion is idempotent and append-only — for each parsed record
the orchestrator inserts only if no row with that symbol exists, so a
second run over the same fetched data inserts zero new rows, leaves the
row count unchanged, and the ingestion path never updates or deletes an
existing row: the Store only grows (the result is the old Store plus a
suffix of newly appended rows). -/
theorem c3_ingestion_idempotent_append_only :
    ∀ (store : Store) (docs : List Ticker),
      ingestDocs (ingestDocs store docs) docs = ingestDocs store docs
      ∧ (∃ added, ingestDocs store docs = store ++ added)
      ∧ get_symbols_count (ingestDocs (ingestDocs store docs) docs)
          = get_symbols_count (ingestDocs store docs) := by
  intro store docs
  have h1 := ingestDocs_of_all_present docs _ (exists_after_ingest docs store)
  exact ⟨h1, ingestDocs_append docs store, by rw [h1]⟩

/-- C7: a record inserted with an HTML-entity-encoded name is stored with
the name decoded at insert time and the other four fields verbatim, so
`get_symbol` on its symbol returns the decoded record. -/
theorem c7_roundtrip_decodes_name :
    ∀ (store : Store) (doc : Ticker),
      document_exists_in_db store doc = false →
      get_symbol (insert_document store doc) doc.symbol =
        .ok { symbol := doc.symbol, name := decode_html_entities doc.name,
              category := doc.category, asset_class := doc.asset_class,
              exchange := doc.exchange } := by
  intro store doc h
  have hfind : store.find? (fun r => r.symbol == doc.symbol) = none := by
    rw [List.find?_eq_none]
    intro r hr
    rw [document_exists_in_db] at h
    have h' := List.any_eq_false.1 h r hr
    simpa using h'
  rw [get_symbol, insert_document, List.find?_append, hfind]
  simp [List.find?]

/-- C7 witness: inserting the `"Barnes &amp; Noble"` record into an empty
store and looking it up returns the name `"Barnes & Noble"`. -/
theorem c7_roundtrip_decodes_name_witness :
    get_symbol
        (insert_document []
          ⟨"BNED", "Barnes &amp; Noble", "Specialty Retail", "Stocks", "NYSE"⟩)
        "BNED" =
      .ok ⟨"BNED", "Barnes & Noble", "Specialty Retail", "Stocks", "NYSE"⟩ :=
  c7_roundtrip_decodes_name []
    ⟨"BNED", "Barnes &amp; Noble", "Specialty Retail", "Stocks", "NYSE"⟩ rfl

theorem scrapeRow_eq (row : HtmlRow) :
    scrapeRow row = if 6 ≤ row.length then some (parseRowSpec row) else none := by
  simp only [scrapeRow, List.length_map]
  by_cases h : 6 ≤ row.length
  · rw [if_pos h, if_pos h]
    have h1 : 1 < row.length := by omega
    have h4 : 4 < row.length := by omega
    have h5 : 5 < row.length := by omega
    have e1 : (row.map (fun c => trimStr c.inner)).getD 1 ""
        = trimStr (row.getD 1 default).inner := by
      rw [List.getD_eq_getElem _ _ (by simpa using h1),
        List.getD_eq_getElem _ _ h1, List.getElem_map]
    have e4 : (row.map (fun c => trimStr c.inner)).getD 4 ""
        = trimStr (row.getD 4 default).inner := by
      rw [List.getD_eq_getElem _ _ (by simpa using h4),
        List.getD_eq_getElem _ _ h4, List.getElem_map]
    have e5 : (row.map (fun c => trimStr c.inner)).getD 5 ""
        = trimStr (row.getD 5 default).inner := by
      rw [List.getD_eq_getElem _ _ (by simpa using h5),
        List.getD_eq_getElem _ _ h5, List.getElem_map]
    rw [e1, e4, e5]
    rfl
  · rw [if_neg h, if_neg h]

/-- C2: for every fetched page the parser emits one record per table row
with at least 6 cells, mapped exactly as the spec's column mapping
(`parseRowSpec`): symbol from the data attribute of the nested link in
cell 0 with empty-string fallback, name from cell 1, category from the
nested link text of cell 3 with `"N/A"` fallback, asset class from cell
4, exchange from cell 5; every shorter row is silently skipped, so a
page with one 6-cell row and one 4-cell row yields exactly one record. -/
theorem c2_parser_row_mapping :
    (∀ page : HtmlPage,
        scrapeRows page
          = (page.filter (fun r => decide (6 ≤ r.length))).map parseRowSpec)
    ∧ scrapeRows [sampleRow6, sampleRow4] = [sampleTicker] := by
  constructor
  · intro page
    induction page with
    | nil => rfl
    | cons row rows ih =>
      show (row :: rows).filterMap scrapeRow = _
      rw [List.filterMap_cons, scrapeRow_eq]
      by_cases h : 6 ≤ row.length
      · rw [if_pos h, List.filter_cons_of_pos (by simpa using h), List.map_cons]
        exact congrArg (List.cons (parseRowSpec row)) ih
      · rw [if_neg h, List.filter_cons_of_neg (by simpa using h)]
        exact ih
  · rfl

/-- C8 counterexample: a delivered non-2xx response is treated as a
successfully fetched document — with a transport that returns HTTP 404
carrying one well-formed row, `scrape_symbols` returns `Ok` with that
row's parsed record and never a `FetchError`. -/
theorem c8_counterexample :
    scrape_symbols send404 base_url "equity" "A" = .ok [sampleTicker]
    ∧ (scrape_symbols send404 base_url "equity" "A").isOk = true := by
  exact ⟨rfl, rfl⟩

/-- C8 amended: the fetcher sends the fixed realistic browser
`User-Agent` header on every request, and its result is exactly the
transport's result with the body parsed — transport failures propagate
as errors, but the response status code is never inspected, so non-2xx
responses are parsed like any other document. -/
theorem c8_fetcher_user_agent_status_ignored :
    (∀ base sector symbol : String,
        (lookupRequest base sector symbol).userAgent = some userAgentString)
    ∧ (∀ (ε : Type) (send : HttpSend ε) (base sector symbol : String),
        scrape_symbols send base sector symbol
          = (send (lookupRequest base sector symbol)).map
              (fun r => scrapeRows r.page)) := by
  refine ⟨fun _ _ _ => rfl, fun ε send base sector symbol => ?_⟩
  cases h : send (lookupRequest base sector symbol) with
  | error e => simp [scrape_symbols, h, Except.map]
  | ok r => simp [scrape_symbols, h, Except.map]

theorem save_symbols_eq_pairs {ε : Type} (send : HttpSend ε) (conn : Store) :
    save_symbols send conn = List.foldlM (savePair send) conn pairsList := by
  rw [save_symbols, pairsList]
  generalize sectors = secs
  induction secs generalizing conn with
  | nil => rfl
  | cons s ss ih =>
    rw [List.flatMap_cons, List.foldlM_cons, List.foldlM_append, List.foldlM_map]
    have hinner :
        List.foldlM (fun x y => savePair send x (s, String.singleton y)) conn search_set
          = search_set.foldlM (savePrefix send s) conn := rfl
    rw [hinner]
    cases hres : search_set.foldlM (savePrefix send s) conn with
    | error e => rfl
    | ok x => exact ih x

theorem foldlM_savePair_ok {ε : Type} (send : HttpSend ε) :
    ∀ (l : List (String × String)) (conn : Store),
      (∀ p ∈ l, ∃ r, scrape_symbols send base_url p.1 p.2 = .ok r) →
      ∃ conn2, List.foldlM (savePair send) conn l = .ok conn2 := by
  intro l
  induction l with
  | nil => intro conn _; exact ⟨conn, rfl⟩
  | cons p t ih =>
    intro conn h
    obtain ⟨r, hr⟩ := h p (List.mem_cons_self p t)
    have hstep : savePair send conn p = .ok (ingestDocs conn r) := by
      rw [savePair]
      rw [show (do
          let result ← scrape_symbols send base_url p.1 p.2
          pure (ingestDocs conn result) : Except ε Store)
        = (scrape_symbols send base_url p.1 p.2).bind
            (fun result => pure (ingestDocs conn result)) from rfl, hr]
      rfl
    obtain ⟨c2, hc2⟩ := ih (ingestDocs conn r) (fun q hq => h q (List.mem_cons_of_mem _ hq))
    rw [List.foldlM_cons, hstep]
    exact ⟨c2, hc2⟩

/-- C6: a full ingestion run sweeps exactly the fixed (sector, prefix)
search space — 6 sectors crossed with the 36 single-character prefixes,
216 fetch operations in request order (`pairsList`) — and if the fetch
or parse of any single pair fails while all earlier pairs succeeded, the
whole run aborts with exactly that error, regardless of what any later
pair would return. -/
theorem c6_full_sweep_and_abort :
    pairsList.length = 216
    ∧ (∀ (ε : Type) (send : HttpSend ε) (conn : Store),
        save_symbols send conn = List.foldlM (savePair send) conn pairsList)
    ∧ (∀ (ε : Type) (send : HttpSend ε) (conn : Store)
        (l₁ : List (String × String)) (sector symbol : String)
        (l₂ : List (String × String)) (e : ε),
        pairsList = l₁ ++ (sector, symbol) :: l₂ →
        (∀ p ∈ l₁, ∃ r, scrape_symbols send base_url p.1 p.2 = .ok r) →
        scrape_symbols send base_url sector symbol = .error e →
        save_symbols send conn = .error e) := by
  refine ⟨rfl, fun ε send conn => save_symbols_eq_pairs send conn, ?_⟩
  intro ε send conn l₁ sector symbol l₂ e hsplit hok herr
  rw [save_symbols_eq_pairs, hsplit, List.foldlM_append]
  obtain ⟨c2, hc2⟩ := foldlM_savePair_ok send l₁ conn hok
  rw [hc2]
  show List.foldlM (savePair send) c2 ((sector, symbol) :: l₂) = .error e
  rw [List.foldlM_cons]
  have hstep : savePair send c2 (sector, symbol) = .error e := by
    rw [savePair]
    rw [show (do
        let result ← scrape_symbols send base_url sector symbol
        pure (ingestDocs c2 result) : Except ε Store)
      = (scrape_symbols send base_url sector symbol).bind
          (fun result => pure (ingestDocs c2 result)) from rfl, herr]
    rfl
  rw [hstep]
  rfl

/-- C6 witness: with a transport failing immediately, the very first pair
(`("equity", "A")`) aborts the whole run with that error. -/
theorem c6_full_sweep_and_abort_witness :
    save_symbols sendFail ([] : Store) = .error 7 :=
  c6_full_sweep_and_abort.2.2 Nat sendFail [] [] "equity" "A" pairsList.tail 7
    rfl (fun p hp => absurd hp (List.not_mem_nil p)) rfl

theorem assetClassOfLabel_mem (label : String) (ac : AssetClass)
    (h : assetClassOfLabel label = some ac) :
    label ∈ ["Equity", "ETF", "Mutual Fund", "Index", "Currency", "Futures", "Crypto"] := by
  unfold assetClassOfLabel at h
  split at h <;> simp_all

/-- C5: calling `search_symbols` with an asset-class label outside the
seven recognized ones fails with the fatal configuration error (the
panic arm), and never returns a result mapping. -/
theorem c5_unrecognized_label_errors :
    ∀ (store : Store) (query label : String),
      label ∉ ["Equity", "ETF", "Mutual Fund", "Index", "Currency", "Futures", "Crypto"] →
      search_symbols store query label = .error .ConfigurationError := by
  intro store query label h
  cases hd : assetClassOfLabel label with
  | some ac => exact absurd (assetClassOfLabel_mem label ac hd) h
  | none => simp only [search_symbols, hd]

/-- C5 witness: the label `"Bond"` fails with the configuration error. -/
theorem c5_unrecognized_label_errors_witness :
    search_symbols [] "x" "Bond" = .error .ConfigurationError :=
  c5_unrecognized_label_errors [] "x" "Bond" (by decide)

theorem foldl_hashMapInsert_of_nodup :
    ∀ (l m : List (String × String)),
      (∀ k ∈ l.map Prod.fst, k ∉ m.map Prod.fst) →
      (l.map Prod.fst).Nodup →
      l.foldl hashMapInsert m = m ++ l := by
  intro l
  induction l with
  | nil => intro m _ _; simp
  | cons kv t ih =>
    intro m hdisj hnodup
    have hins : hashMapInsert m kv = m ++ [kv] := by
      rw [hashMapInsert]
      have hm : m.filter (fun q => !(q.1 == kv.1)) = m := by
        rw [List.filter_eq_self]
        intro q hq
        have hk : kv.1 ∉ m.map Prod.fst := hdisj kv.1 (by simp)
        simp only [Bool.not_eq_eq_eq_not, Bool.not_true, beq_eq_false_iff_ne, ne_eq]
        intro hqe
        exact hk (hqe ▸ List.mem_map_of_mem Prod.fst hq)
      rw [hm]
    rw [List.foldl_cons, hins]
    rw [List.map_cons, List.nodup_cons] at hnodup
    have hd2 : ∀ k ∈ t.map Prod.fst, k ∉ (m ++ [kv]).map Prod.fst := by
      intro k hk
      rw [List.map_append, List.mem_append]
      rintro (hin | hin)
      · exact hdisj k (by simp [hk]) hin
      · simp only [List.map_cons, List.map_nil, List.mem_singleton] at hin
        exact hnodup.1 (hin ▸ hk)
    rw [ih (m ++ [kv]) hd2 hnodup.2, List.append_assoc]
    rfl

theorem searchMatches_sublist (store : Store) (query : String) (ac : AssetClass) :
    (searchMatches store query ac).Sublist store := by
  refine List.Sublist.trans (List.filter_sublist _) ?_
  rw [get_symbols]
  exact List.filter_sublist _

theorem hashMap_searchPairs (store : Store) (query : String) (ac : AssetClass)
    (hnodup : (store.map (·.symbol)).Nodup) :
    hashMapOfList (searchPairs store query ac) = searchPairs store query ac := by
  have hkeys : ((searchPairs store query ac).map Prod.fst).Nodup := by
    rw [searchPairs, List.map_map]
    exact List.Nodup.sublist ((searchMatches_sublist store query ac).map (·.symbol)) hnodup
  exact foldl_hashMapInsert_of_nodup _ [] (by simp) hkeys

/-- C4: for every catalog state with unique symbols (the primary-key
invariant) and every query, `search_symbols(query, label)` returns a
mapping containing key `s` mapped to name `n` exactly when some record
of the labeled asset class (the unfiltered `Category::All`,
`Exchange::All` fetch) has symbol `s` and name `n` and its lowercased
symbol or name contains the lowercased query; concretely,
`search_symbols("Apple", "Equity")` on a catalog with the
`{AAPL, Apple Inc., Stocks}` record returns exactly the mapping
`{"AAPL" ↦ "Apple Inc."}`. -/
theorem c4_search_symbols_mapping :
    (∀ (store : Store) (query label : String) (ac : AssetClass),
      assetClassOfLabel label = some ac →
      (store.map (·.symbol)).Nodup →
      ∃ m, search_symbols store query label = .ok m
        ∧ ∀ s n : String, ((s, n) ∈ m ↔
            ∃ tc ∈ get_symbols store ac .All .All,
              tc.symbol = s ∧ tc.name = n
              ∧ (containsSubstr (to_lowercase s) (to_lowercase query)
                  || containsSubstr (to_lowercase n) (to_lowercase query)) = true))
    ∧ search_symbols [aaplSym] "Apple" "Equity" = .ok [("AAPL", "Apple Inc.")] := by
  constructor
  · intro store query label ac hlabel hnodup
    refine ⟨hashMapOfList (searchPairs store query ac), by
      simp only [search_symbols, hlabel], fun s n => ?_⟩
    rw [hashMap_searchPairs store query ac hnodup]
    rw [searchPairs, searchMatches]
    simp only [List.mem_map, List.mem_filter, Prod.mk.injEq]
    constructor
    · rintro ⟨tc, ⟨htc, hpred⟩, hs, hn⟩
      exact ⟨tc, htc, hs, hn, by rw [hs, hn] at hpred; exact hpred⟩
    · rintro ⟨tc, htc, hs, hn, hpred⟩
      exact ⟨tc, ⟨htc, by rw [hs, hn]; exact hpred⟩, hs, hn⟩
  · rfl

/-- C4 witness: the general mapping characterization applied to the
one-record Apple catalog. -/
theorem c4_search_symbols_mapping_witness :
    ∃ m, search_symbols [aaplSym] "Apple" "Equity" = .ok m
      ∧ ∀ s n : String, ((s, n) ∈ m ↔
          ∃ tc ∈ get_symbols [aaplSym] AssetClass.Stocks .All .All,
            tc.symbol = s ∧ tc.name = n
            ∧ (containsSubstr (to_lowercase s) (to_lowercase "Apple")
                || containsSubstr (to_lowercase n) (to_lowercase "Apple")) = true) :=
  c4_search_symbols_mapping.1 [aaplSym] "Apple" "Equity" AssetClass.Stocks rfl
    (by decide)

theorem infixOfChars_nil (l : List Char) : infixOfChars [] l = true := by
  induction l with
  | nil => rfl
  | cons c t ih => simp [infixOfChars, ih, List.isPrefixOf]

theorem get_symbols_all_all (store : Store) (ac : AssetClass) :
    get_symbols store ac .All .All
      = store.filter (fun s => (AssetClass.to_string_vec store ac).contains s.asset_class) := by
  rw [get_symbols]
  refine List.filter_congr ?_
  intro s hs
  have hcat : (Category.to_string_vec store .All).contains s.category = true := by
    rw [contains_iff_mem]
    simp only [Category.to_string_vec, get_distinct_categories, List.mem_dedup]
    exact List.mem_map_of_mem _ hs
  have hex : (Exchange.to_string_vec store .All).contains s.exchange = true := by
    rw [contains_iff_mem]
    simp only [Exchange.to_string_vec, get_distinct_exchanges, List.mem_dedup]
    exact List.mem_map_of_mem _ hs
  rw [hcat, hex, Bool.and_true, Bool.and_true]

/-- C10: for every recognized asset-class label, searching with the empty
query returns an entry for every record of that asset class — the empty
string is a substring of every lowercased symbol and name — so the
result mapping's keys are exactly the symbols of the records of that
asset class in the Store. -/
theorem c10_empty_query_returns_whole_asset_class :
    ∀ (store : Store) (label : String) (ac : AssetClass),
      assetClassOfLabel label = some ac →
      (store.map (·.symbol)).Nodup →
      ∃ m, search_symbols store "" label = .ok m
        ∧ m.map Prod.fst
            = (store.filter (fun s =>
                (AssetClass.to_string_vec store ac).contains s.asset_class)).map
              (·.symbol) := by
  intro store label ac hlabel hnodup
  refine ⟨hashMapOfList (searchPairs store "" ac), by
    simp only [search_symbols, hlabel], ?_⟩
  rw [hashMap_searchPairs store "" ac hnodup]
  have hmatches : searchMatches store "" ac = get_symbols store ac .All .All := by
    rw [searchMatches, List.filter_eq_self]
    intro tc _
    have : containsSubstr (to_lowercase tc.symbol) (to_lowercase "") = true := by
      rw [containsSubstr, to_lowercase]
      exact infixOfChars_nil _
    rw [this, Bool.true_or]
  rw [searchPairs, hmatches, get_symbols_all_all, List.map_map]
  rfl

/-- C10 witness: the empty query on the one-record Apple catalog under
label `"Equity"` keys exactly that record's symbol. -/
theorem c10_empty_query_returns_whole_asset_class_witness :
    ∃ m, search_symbols [aaplSym] "" "Equity" = .ok m
      ∧ m.map Prod.fst
          = ([aaplSym].filter (fun s =>
              (AssetClass.to_string_vec [aaplSym] AssetClass.Stocks).contains
                s.asset_class)).map (·.symbol) :=
  c10_empty_query_returns_whole_asset_class [aaplSym] "Equity" AssetClass.Stocks rfl
    (by decide)

set_option maxRecDepth 40000 in
/-- C9 counterexample: `update_database` does not replace the cached
pool — rebuilding over a state whose `DATABASE_POOL` is set on the old
contents leaves the cell on the old contents, and a subsequent
`get_database_pool` still serves the old pool, not the rebuilt file. -/
theorem c9_counterexample :
    update_database sendPage ⟨some [oldSym], some [oldSym]⟩
        = .ok ⟨some [aaplSym], some [oldSym]⟩
    ∧ get_database_pool sendPage none ⟨some [aaplSym], some [oldSym]⟩
        = .ok ([oldSym], ⟨some [aaplSym], some [oldSym]⟩)
    ∧ [oldSym] ≠ [aaplSym] := by
  refine ⟨rfl, rfl, by decide⟩

/-- C9 amended: `update_database` deletes the existing Store file and
re-runs the full ingestion against a fresh empty table — a wholesale
rebuild whose result is independent of the previous file contents, with
ingestion failures propagated — but it never touches the process-wide
cached pool handle, which keeps serving the previously cached Store. -/
theorem c9_update_database_rebuild :
    ∀ (ε : Type) (send : HttpSend ε) (st : ProcState),
      (∀ e, save_symbols send ([] : Store) = .error e →
        update_database send st = .error e)
      ∧ (∀ rebuilt, save_symbols send ([] : Store) = .ok rebuilt →
          update_database send st
            = .ok ⟨some rebuilt, st.databasePool⟩) := by
  intro ε send st
  constructor
  · intro e he
    simp only [update_database, he]
  · intro rebuilt hr
    simp only [update_database, hr]

set_option maxRecDepth 40000 in
/-- C9 amended witness: the rebuild over the old state yields the
freshly ingested file while the cached pool field carries over. -/
theorem c9_update_database_rebuild_witness :
    update_database sendPage ⟨some [oldSym], some [oldSym]⟩
      = .ok ⟨some [aaplSym], some [oldSym]⟩ :=
  (c9_update_database_rebuild Nat sendPage ⟨some [oldSym], some [oldSym]⟩).2
    [aaplSym] rfl

end Yfs
